import Mathlib

/-!
Verification development for the `itmn` hierarchical item manager
(repository `compscripts`).

The definitions below are shallow embeddings of the Rust sources:
  * `src/src/itmn/item.rs`      — the `Item` tree node and its field validation,
  * `src/utils/src/misc.rs`     — identifier allocation and range parsing,
  * `src/src/itmn/manager.rs`   — `ItemManager` construction, search, `add_item_on_root`,
                                  `try_remove` and `swap`,
  * `src/itmn/src/main.rs`      — the change-ownership (reparent) command flow,
  * `src/src/itmn/report.rs`    — the report header.

Rust `HashSet<u32>` is modelled as `Finset ℕ`, `Vec<Item>` as `List Item`,
`u32` values as `ℕ` (with explicit `< 2 ^ 32` bounds where `parse::<u32>()`
can overflow).  Functions that can panic (`unwrap`) return `Option`, with
`none` standing for the panic.  A few functions whose source file is absent
from the snapshot are modelled from the specification; each such definition
carries a doc comment starting with `Modelled from the spec:`.
-/

/-- States of an item, from `ItemState` in `src/src/itmn/item.rs`. -/
inductive ItemState where
  | todo
  | done
  | note
deriving DecidableEq, Repr

/-- Tree node from `Item` in `src/src/itmn/item.rs`: a name, a state, an
optional user-facing ref-id, a permanent internal id, a free-form
description, an ordered list of children and an optional context tag. -/
inductive Item where
  | mk (name : String) (state : ItemState) (ref_id : Option Nat) (internal_id : Nat)
       (description : String) (children : List Item) (context : Option String)

/-- Projection: the `name` field of an `Item`. -/
def Item.name : Item → String
  | .mk n _ _ _ _ _ _ => n

/-- Projection: the `state` field of an `Item`. -/
def Item.state : Item → ItemState
  | .mk _ s _ _ _ _ _ => s

/-- Projection: the `ref_id` field of an `Item`. -/
def Item.ref_id : Item → Option Nat
  | .mk _ _ r _ _ _ _ => r

/-- Projection: the `internal_id` field of an `Item`. -/
def Item.internal_id : Item → Nat
  | .mk _ _ _ i _ _ _ => i

/-- Projection: the `description` field of an `Item`. -/
def Item.description : Item → String
  | .mk _ _ _ _ d _ _ => d

/-- Projection: the `children` field of an `Item`. -/
def Item.children : Item → List Item
  | .mk _ _ _ _ _ ch _ => ch

/-- Projection: the `context` field of an `Item`. -/
def Item.context : Item → Option String
  | .mk _ _ _ _ _ _ ctx => ctx

/-- Replace the `ref_id` field of an item, keeping everything else. -/
def Item.withRefId (it : Item) (r : Option Nat) : Item :=
  match it with
  | .mk n s _ i d ch ctx => .mk n s r i d ch ctx

/-- Replace the `children` field of an item, keeping everything else. -/
def Item.withChildren (it : Item) (ch : List Item) : Item :=
  match it with
  | .mk n s r i d _ ctx => .mk n s r i d ch ctx

mutual

/-- Structural boolean equality on items (field-wise, recursive). -/
def Item.beq : Item → Item → Bool
  | .mk n1 s1 r1 i1 d1 c1 x1, .mk n2 s2 r2 i2 d2 c2 x2 =>
    n1 == n2 && s1 == s2 && r1 == r2 && i1 == i2 && d1 == d2 && Item.beqList c1 c2 && x1 == x2

/-- Structural boolean equality on lists of items. -/
def Item.beqList : List Item → List Item → Bool
  | [], [] => true
  | a :: as, b :: bs => Item.beq a b && Item.beqList as bs
  | _, _ => false

end

mutual

theorem Item.beq_iff : ∀ a b : Item, Item.beq a b = true ↔ a = b
  | .mk n1 s1 r1 i1 d1 c1 x1, .mk n2 s2 r2 i2 d2 c2 x2 => by
    simp only [Item.beq, Bool.and_eq_true, beq_iff_eq, Item.mk.injEq]
    rw [Item.beqList_iff c1 c2]
    tauto

theorem Item.beqList_iff : ∀ as bs : List Item, Item.beqList as bs = true ↔ as = bs
  | [], [] => by simp [Item.beqList]
  | a :: as, b :: bs => by
    simp only [Item.beqList, Bool.and_eq_true, List.cons.injEq]
    rw [Item.beq_iff a b, Item.beqList_iff as bs]
  | [], _ :: _ => by simp [Item.beqList]
  | _ :: _, [] => by simp [Item.beqList]

end

instance : BEq Item := ⟨Item.beq⟩

instance : DecidableEq Item := fun a b => decidable_of_iff _ (Item.beq_iff a b)

/-- Character filter `validate_char` from `src/src/itmn/item.rs`: newline,
tab and carriage return are invalid, everything else is kept. -/
def validate_char (c : Char) : Bool :=
  match c with
  | '\n' | '\t' | '\r' => false
  | _ => true

/-- Name validation from `Item::validate_name`: keep only valid characters. -/
def Item.validate_name (name : String) : String :=
  String.mk (name.toList.filter validate_char)

/-- Test from `Item::context_translates_to_null`: `.void`, `.none` and the
empty string (case-insensitively) mean "no context". -/
def Item.context_translates_to_null (s : String) : Bool :=
  s.toLower = ".void" || s.toLower = ".none" || s.toLower = ""

/-- Context validation from `Item::validate_context`. -/
def Item.validate_context (context : String) : Option String :=
  if Item.context_translates_to_null context then none
  else some (String.mk (context.toList.filter validate_char))

/-- Constructor `Item::new` from `src/src/itmn/item.rs`: runs name and
context validation on the free-text fields. -/
def Item.new (ref_id : Option Nat) (internal_id : Nat) (name : String) (context : String)
    (state : ItemState) (description : String) (children : List Item) : Item :=
  .mk (Item.validate_name name) state ref_id internal_id description children
    (Item.validate_context context)

/-- Fuel-bounded loop body of `find_lowest_free_value` from
`src/utils/src/misc.rs`: probe upward from `cur` until a value outside the
set is found.  The fuel only serves termination; `s.card + 1` steps always
suffice. -/
def lowestFreeAux (s : Finset Nat) : Nat → Nat → Nat
  | cur, 0 => cur
  | cur, fuel + 1 => if cur ∈ s then lowestFreeAux s (cur + 1) fuel else cur

/-- Allocator `find_lowest_free_value` from `src/utils/src/misc.rs`: linear
probe from 0 upward, returning the first value not in the set. -/
def find_lowest_free_value (s : Finset Nat) : Nat :=
  lowestFreeAux s 0 (s.card + 1)

theorem lowestFreeAux_spec (s : Finset Nat) :
    ∀ fuel cur, (∀ k < cur, k ∈ s) → s.card + 1 ≤ cur + fuel →
      lowestFreeAux s cur fuel ∉ s ∧ ∀ k < lowestFreeAux s cur fuel, k ∈ s := by
  intro fuel
  induction fuel with
  | zero =>
    intro cur hbelow hfuel
    exfalso
    have hsub : Finset.range cur ⊆ s := by
      intro k hk
      exact hbelow k (Finset.mem_range.mp hk)
    have := Finset.card_le_card hsub
    rw [Finset.card_range] at this
    omega
  | succ n ih =>
    intro cur hbelow hfuel
    rw [lowestFreeAux]
    by_cases hc : cur ∈ s
    · rw [if_pos hc]
      refine ih (cur + 1) ?_ (by omega)
      intro k hk
      rcases Nat.lt_succ_iff_lt_or_eq.mp hk with h | h
      · exact hbelow k h
      · exact h ▸ hc
    · rw [if_neg hc]
      exact ⟨hc, hbelow⟩

/-- Soundness of the lowest-free allocator: its result is not in the set. -/
theorem find_lowest_free_value_not_mem (s : Finset Nat) : find_lowest_free_value s ∉ s :=
  (lowestFreeAux_spec s (s.card + 1) 0 (by omega) (by omega)).1

/-- Minimality of the lowest-free allocator: everything below its result is
in the set. -/
theorem find_lowest_free_value_min (s : Finset Nat) :
    ∀ k < find_lowest_free_value s, k ∈ s :=
  (lowestFreeAux_spec s (s.card + 1) 0 (by omega) (by omega)).2

/-- Allocator `find_highest_free_value` from `src/utils/src/misc.rs`: fold
`max` over the set starting from 0 (modelled as `Finset.sup id`), then step
past it if it is itself used. -/
def find_highest_free_value (s : Finset Nat) : Nat :=
  let m := s.sup id
  if m ∈ s then m + 1 else m

/-- Dominance of the highest-free allocator: its result is at least every
element of the set. -/
theorem find_highest_free_value_ge (s : Finset Nat) :
    ∀ x ∈ s, x ≤ find_highest_free_value s := by
  intro x hx
  have hle : x ≤ s.sup id := Finset.le_sup (f := id) hx
  unfold find_highest_free_value
  by_cases h : s.sup id ∈ s
  · rw [if_pos h]; omega
  · rw [if_neg h]; omega

/-- Errors of `ItemManager::new`, from `ManagerError` in
`src/src/itmn/manager.rs`. -/
inductive ManagerError where
  | repeatedRefID (id : Nat)
  | repeatedInternalID (id : Nat)
deriving DecidableEq, Repr

/-- Manager state from `ItemManager` in `src/src/itmn/manager.rs`: the
forest of root items plus the sets of used internal ids and ref-ids. -/
structure ItemManager where
  data : List Item
  internal_ids : Finset Nat
  ref_ids : Finset Nat
deriving DecidableEq

mutual

/-- First pass of `ItemManager::new` (`travel` in `src/src/itmn/manager.rs`)
on a single item: record its ref-id and internal id, failing on a
duplicate, then walk its children. -/
def travelItem (refSet inSet : Finset Nat) : Item → Except ManagerError (Finset Nat × Finset Nat)
  | .mk _ _ ref iid _ ch _ =>
    match ref with
    | some id =>
      if id ∈ refSet then .error (.repeatedRefID id)
      else
        if iid ∈ inSet then .error (.repeatedInternalID iid)
        else travelForest (insert id refSet) (insert iid inSet) ch
    | none =>
      if iid ∈ inSet then .error (.repeatedInternalID iid)
      else travelForest refSet (insert iid inSet) ch

/-- First pass of `ItemManager::new` on a forest, threading the id sets
left to right. -/
def travelForest (refSet inSet : Finset Nat) : List Item → Except ManagerError (Finset Nat × Finset Nat)
  | [] => .ok (refSet, inSet)
  | t :: ts =>
    match travelItem refSet inSet t with
    | .error e => .error e
    | .ok (refSet', inSet') => travelForest refSet' inSet' ts

end

/-- Constructor `ItemManager::new` from `src/src/itmn/manager.rs`: walk the
forest collecting both id sets (failing fast on duplicates), then — exactly
as the source does — iterate over the *root* items only, giving each
`Todo`/`Note` root without a ref-id the value `find_lowest_free_value`
computes from the collected set, without inserting it back into the set. -/
def ItemManager.new (data : List Item) : Except ManagerError ItemManager :=
  match travelForest ∅ ∅ data with
  | .error e => .error e
  | .ok (refSet, inSet) =>
    let data' := data.map (fun it =>
      match it.state with
      | .done => it
      | .todo =>
        if it.ref_id = none then it.withRefId (some (find_lowest_free_value refSet)) else it
      | .note =>
        if it.ref_id = none then it.withRefId (some (find_lowest_free_value refSet)) else it)
    .ok ⟨data', inSet, refSet⟩

/-- Mutation `ItemManager::add_item_on_root` from `src/src/itmn/manager.rs`:
allocate the lowest free ref-id and the highest free internal id, record
both, and append the newly constructed item to the root list. -/
def ItemManager.add_item_on_root (m : ItemManager) (name context : String) (state : ItemState)
    (description : String) (children : List Item) : ItemManager :=
  let free_ref_id := find_lowest_free_value m.ref_ids
  let ref_ids' := insert free_ref_id m.ref_ids
  let free_internal_id := find_highest_free_value m.internal_ids
  let internal_ids' := insert free_internal_id m.internal_ids
  ⟨m.data ++ [Item.new (some free_ref_id) free_internal_id name context state description children],
   internal_ids', ref_ids'⟩

mutual

/-- Search from `Searchable<RefId> for ItemManager` (`find`) in
`src/src/itmn/manager.rs`, single item: the item itself if its ref-id
matches, else the first pre-order match among its children. -/
def findItemRef (r : Nat) : Item → Option Item
  | .mk name st ref iid d ch ctx =>
    if ref = some r then some (.mk name st ref iid d ch ctx)
    else findForestRef r ch

/-- Search from `Searchable<RefId> for ItemManager` (`find`), forest: first
pre-order match. -/
def findForestRef (r : Nat) : List Item → Option Item
  | [] => none
  | t :: ts =>
    match findItemRef r t with
    | some x => some x
    | none => findForestRef r ts

end

mutual

/-- Search from `Searchable<InternalId> for ItemManager` (`find`) in
`src/src/itmn/manager.rs`, single item. -/
def findItemInt (n : Nat) : Item → Option Item
  | .mk name st ref iid d ch ctx =>
    if iid = n then some (.mk name st ref iid d ch ctx)
    else findForestInt n ch

/-- Search from `Searchable<InternalId> for ItemManager` (`find`), forest. -/
def findForestInt (n : Nat) : List Item → Option Item
  | [] => none
  | t :: ts =>
    match findItemInt n t with
    | some x => some x
    | none => findForestInt n ts

end

mutual

/-- Number of nodes in an item's subtree (itself included) whose ref-id
equals `some r`; an accounting device for uniqueness arguments. -/
def countItemRef (r : Nat) : Item → Nat
  | .mk _ _ ref _ _ ch _ => (if ref = some r then 1 else 0) + countForestRef r ch

/-- Number of nodes in a forest whose ref-id equals `some r`. -/
def countForestRef (r : Nat) : List Item → Nat
  | [] => 0
  | t :: ts => countItemRef r t + countForestRef r ts

end

mutual

/-- Boolean: does some node in the item's subtree (itself included)
satisfy `p`? -/
def anyItem (p : Item → Bool) : Item → Bool
  | .mk name st ref iid d ch ctx =>
    p (.mk name st ref iid d ch ctx) || anyForest p ch

/-- Boolean: does some node in the forest satisfy `p`? -/
def anyForest (p : Item → Bool) : List Item → Bool
  | [] => false
  | t :: ts => anyItem p t || anyForest p ts

end

/-- State mapper installed by the `done` selection action in
`src/src/itmn/main.rs` (and identically in `src/itmn/src/main.rs`):
`Todo` becomes `Done`, every other state is kept. -/
def doneMapper : ItemState → ItemState
  | .todo => .done
  | s => s

mutual

/-- Modelled from the spec: the single-item step of
`ItemManager::change_item_state` — the defining `manager.rs` of the
`src/itmn` crate is absent from the snapshot (only its callers are).
Per section 4.4 of the spec it applies a pure state-transition function to
the item located by the query and, if the resulting state is `Done`,
clears the ref-id.  Location uses the same first-pre-order-match
discipline as `find`/`find_mut`. -/
def changeStateItem (r : Nat) (f : ItemState → ItemState) : Item → Option Item
  | .mk name st ref iid d ch ctx =>
    if ref = some r then
      some (.mk name (f st) (if f st = .done then none else ref) iid d ch ctx)
    else
      match changeStateForest r f ch with
      | some ch' => some (.mk name st ref iid d ch' ctx)
      | none => none

/-- Modelled from the spec: forest step of `change_item_state`; `none`
means the query resolved to nothing (`Result::Err(NotFound)`). -/
def changeStateForest (r : Nat) (f : ItemState → ItemState) : List Item → Option (List Item)
  | [] => none
  | t :: ts =>
    match changeStateItem r f t with
    | some t' => some (t' :: ts)
    | none =>
      match changeStateForest r f ts with
      | some ts' => some (t :: ts')
      | none => none

end

/-- Modelled from the spec: `ItemManager::change_item_state(query, mapper)`
restricted to ref-id queries, acting on the manager's forest. -/
def change_item_state (data : List Item) (r : Nat) (f : ItemState → ItemState) :
    Option (List Item) :=
  changeStateForest r f data

mutual

theorem changeStateItem_isSome (r : Nat) (f : ItemState → ItemState) :
    ∀ it : Item, (changeStateItem r f it).isSome = (findItemRef r it).isSome
  | .mk name st ref iid d ch ctx => by
    rw [changeStateItem, findItemRef]
    by_cases h : ref = some r
    · rw [if_pos h, if_pos h]; rfl
    · rw [if_neg h, if_neg h]
      have := changeStateForest_isSome r f ch
      cases hcs : changeStateForest r f ch with
      | some ch' =>
        rw [hcs] at this
        cases hf : findForestRef r ch with
        | some x => rfl
        | none => rw [hf] at this; simp at this
      | none =>
        rw [hcs] at this
        cases hf : findForestRef r ch with
        | some x => rw [hf] at this; simp at this
        | none => rfl

theorem changeStateForest_isSome (r : Nat) (f : ItemState → ItemState) :
    ∀ ts : List Item, (changeStateForest r f ts).isSome = (findForestRef r ts).isSome
  | [] => by rw [changeStateForest, findForestRef]; rfl
  | t :: ts => by
    rw [changeStateForest, findForestRef]
    have ht := changeStateItem_isSome r f t
    have hts := changeStateForest_isSome r f ts
    cases hci : changeStateItem r f t with
    | some t' =>
      rw [hci] at ht
      cases hf : findItemRef r t with
      | some x => rfl
      | none => rw [hf] at ht; simp at ht
    | none =>
      rw [hci] at ht
      cases hf : findItemRef r t with
      | some x => rw [hf] at ht; simp at ht
      | none =>
        cases hcs : changeStateForest r f ts with
        | some ts' =>
          rw [hcs] at hts
          cases hfs : findForestRef r ts with
          | some x => rfl
          | none => rw [hfs] at hts; simp at hts
        | none =>
          rw [hcs] at hts
          cases hfs : findForestRef r ts with
          | some x => rw [hfs] at hts; simp at hts
          | none => rfl

end

mutual

theorem countItemRef_zero_iff (r : Nat) :
    ∀ it : Item, countItemRef r it = 0 ↔ findItemRef r it = none
  | .mk name st ref iid d ch ctx => by
    rw [countItemRef, findItemRef]
    by_cases h : ref = some r
    · rw [if_pos h, if_pos h]
      simp
    · rw [if_neg h, if_neg h]
      rw [Nat.add_comm]
      simpa using countForestRef_zero_iff r ch

theorem countForestRef_zero_iff (r : Nat) :
    ∀ ts : List Item, countForestRef r ts = 0 ↔ findForestRef r ts = none
  | [] => by rw [countForestRef, findForestRef]; simp
  | t :: ts => by
    rw [countForestRef, findForestRef]
    have ht := countItemRef_zero_iff r t
    have hts := countForestRef_zero_iff r ts
    constructor
    · intro h
      have h1 : countItemRef r t = 0 := by omega
      have h2 : countForestRef r ts = 0 := by omega
      rw [ht.mp h1, hts.mp h2]
    · intro h
      cases hf : findItemRef r t with
      | some x => rw [hf] at h; exact absurd h (by simp)
      | none =>
        rw [hf] at h
        have h1 : countItemRef r t = 0 := ht.mpr hf
        have h2 : countForestRef r ts = 0 := hts.mpr h
        omega

end

mutual

theorem changeStateItem_count (r : Nat) :
    ∀ it it' : Item, changeStateItem r doneMapper it = some it' →
      countItemRef r it ≤ 1 →
      (∀ m, findItemRef r it = some m → m.state = .todo) →
      countItemRef r it' = 0
  | .mk name st ref iid d ch ctx, it' => by
    intro hcs hcount hfind
    rw [changeStateItem] at hcs
    by_cases h : ref = some r
    · rw [if_pos h] at hcs
      have hm : findItemRef r (.mk name st ref iid d ch ctx)
          = some (.mk name st ref iid d ch ctx) := by
        rw [findItemRef, if_pos h]
      have hst : st = .todo := hfind _ hm
      subst hst
      simp only [doneMapper, reduceIte, Option.some.injEq] at hcs
      subst hcs
      rw [countItemRef] at hcount ⊢
      rw [if_pos h] at hcount
      have hch : countForestRef r ch = 0 := by omega
      simp [hch]
    · rw [if_neg h] at hcs
      cases hcf : changeStateForest r doneMapper ch with
      | none => rw [hcf] at hcs; exact absurd hcs (by simp)
      | some ch' =>
        rw [hcf] at hcs
        simp only [Option.some.injEq] at hcs
        subst hcs
        rw [countItemRef] at hcount ⊢
        rw [if_neg h] at hcount ⊢
        have hch' := changeStateForest_count r ch ch' hcf (by omega) (by
          intro m hm
          refine hfind m ?_
          rw [findItemRef, if_neg h]
          exact hm)
        omega

theorem changeStateForest_count (r : Nat) :
    ∀ ts ts' : List Item, changeStateForest r doneMapper ts = some ts' →
      countForestRef r ts ≤ 1 →
      (∀ m, findForestRef r ts = some m → m.state = .todo) →
      countForestRef r ts' = 0
  | [], ts' => by
    intro hcs
    rw [changeStateForest] at hcs
    exact absurd hcs (by simp)
  | t :: ts, ts' => by
    intro hcs hcount hfind
    rw [changeStateForest] at hcs
    cases hci : changeStateItem r doneMapper t with
    | some t' =>
      rw [hci] at hcs
      simp only [Option.some.injEq] at hcs
      subst hcs
      have hsome : (findItemRef r t).isSome = true := by
        rw [← changeStateItem_isSome r doneMapper t, hci]; rfl
      obtain ⟨m0, hm0⟩ := Option.isSome_iff_exists.mp hsome
      have hm0' : findForestRef r (t :: ts) = some m0 := by
        rw [findForestRef, hm0]
      have htodo := hfind m0 hm0'
      have h1 : countItemRef r t ≠ 0 := by
        intro h0
        rw [(countItemRef_zero_iff r t).mp h0] at hm0
        exact absurd hm0 (by simp)
      rw [countForestRef] at hcount
      have hts0 : countForestRef r ts = 0 := by omega
      have ht0 := changeStateItem_count r t t' hci (by omega) (by
        intro m hm
        rw [hm0] at hm
        injection hm with h2
        exact h2 ▸ htodo)
      rw [countForestRef]
      omega
    | none =>
      rw [hci] at hcs
      cases hcf : changeStateForest r doneMapper ts with
      | none => rw [hcf] at hcs; exact absurd hcs (by simp)
      | some ts2 =>
        rw [hcf] at hcs
        simp only [Option.some.injEq] at hcs
        subst hcs
        have hfnone : findItemRef r t = none := by
          have := changeStateItem_isSome r doneMapper t
          rw [hci] at this
          cases hf : findItemRef r t with
          | some x => rw [hf] at this; exact absurd this.symm (by simp)
          | none => rfl
        have ht0 : countItemRef r t = 0 := (countItemRef_zero_iff r t).mpr hfnone
        rw [countForestRef] at hcount
        have hts2 := changeStateForest_count r ts ts2 hcf (by omega) (by
          intro m hm
          refine hfind m ?_
          rw [findForestRef, hfnone]
          exact hm)
        rw [countForestRef]
        omega

end

/-- Predicate singling out the completed form of the item with internal id
`iid`: ref-id cleared and state `Done`. -/
def donePred (iid : Nat) (x : Item) : Bool :=
  x.internal_id == iid && x.ref_id == none && x.state == ItemState.done

mutual

theorem changeStateItem_target (r : Nat) :
    ∀ it it' m : Item, changeStateItem r doneMapper it = some it' →
      findItemRef r it = some m → m.state = .todo →
      anyItem (donePred m.internal_id) it' = true
  | .mk name st ref iid d ch ctx, it', m => by
    intro hcs hfindm htodo
    rw [changeStateItem] at hcs
    rw [findItemRef] at hfindm
    by_cases h : ref = some r
    · rw [if_pos h] at hcs hfindm
      simp only [Option.some.injEq] at hfindm
      subst hfindm
      have hst : st = .todo := htodo
      subst hst
      simp only [doneMapper, reduceIte, Option.some.injEq] at hcs
      subst hcs
      rw [anyItem]
      simp [donePred, Item.internal_id, Item.ref_id, Item.state]
    · rw [if_neg h] at hcs hfindm
      cases hcf : changeStateForest r doneMapper ch with
      | none => rw [hcf] at hcs; exact absurd hcs (by simp)
      | some ch' =>
        rw [hcf] at hcs
        simp only [Option.some.injEq] at hcs
        subst hcs
        have hch := changeStateForest_target r ch ch' m hcf hfindm htodo
        rw [anyItem, hch]
        simp

theorem changeStateForest_target (r : Nat) :
    ∀ ts ts' : List Item, ∀ m : Item, changeStateForest r doneMapper ts = some ts' →
      findForestRef r ts = some m → m.state = .todo →
      anyForest (donePred m.internal_id) ts' = true
  | [], ts', m => by
    intro hcs
    rw [changeStateForest] at hcs
    exact absurd hcs (by simp)
  | t :: ts, ts', m => by
    intro hcs hfindm htodo
    rw [changeStateForest] at hcs
    rw [findForestRef] at hfindm
    cases hci : changeStateItem r doneMapper t with
    | some t' =>
      rw [hci] at hcs
      simp only [Option.some.injEq] at hcs
      subst hcs
      have hsome : (findItemRef r t).isSome = true := by
        rw [← changeStateItem_isSome r doneMapper t, hci]; rfl
      obtain ⟨m0, hm0⟩ := Option.isSome_iff_exists.mp hsome
      rw [hm0] at hfindm
      simp only [Option.some.injEq] at hfindm
      have ht := changeStateItem_target r t t' m hci (hfindm ▸ hm0) htodo
      rw [anyForest, ht]
      simp
    | none =>
      rw [hci] at hcs
      cases hcf : changeStateForest r doneMapper ts with
      | none => rw [hcf] at hcs; exact absurd hcs (by simp)
      | some ts2 =>
        rw [hcf] at hcs
        simp only [Option.some.injEq] at hcs
        subst hcs
        have hfnone : findItemRef r t = none := by
          have := changeStateItem_isSome r doneMapper t
          rw [hci] at this
          cases hf : findItemRef r t with
          | some x => rw [hf] at this; exact absurd this.symm (by simp)
          | none => rfl
        rw [hfnone] at hfindm
        have hts := changeStateForest_target r ts ts2 m hcf hfindm htodo
        rw [anyForest, hts]
        simp

end

/-- C4: in a forest where at most one item carries ref-id `r` (the manager
invariant) and the item found under `r` is in state `Todo`, running
`change_item_state` with the `Done` mapper produces a forest where a
find-by-ref-id lookup of `r` returns `none`, and the affected item —
identified by its internal id — now has `ref_id = none` and state `Done`. -/
theorem change_item_state_done_clears (data data' : List Item) (r : Nat) (m : Item)
    (hu : countForestRef r data ≤ 1)
    (hf : findForestRef r data = some m)
    (hs : m.state = .todo)
    (hc : change_item_state data r doneMapper = some data') :
    findForestRef r data' = none ∧ anyForest (donePred m.internal_id) data' = true := by
  have hfind : ∀ m', findForestRef r data = some m' → m'.state = .todo := by
    intro m' hm'
    rw [hf] at hm'
    injection hm' with h
    exact h ▸ hs
  exact ⟨(countForestRef_zero_iff r data').mp (changeStateForest_count r data data' hc hu hfind),
    changeStateForest_target r data data' m hc hf hs⟩

/-- Witness for C4 at a concrete one-item forest: marking the `Todo` item
with ref-id 5 done clears the ref-id and makes the lookup fail. -/
theorem change_item_state_done_clears_witness :
    findForestRef 5 [Item.mk "a" ItemState.done none 0 "" [] none] = none ∧
      anyForest (donePred 0) [Item.mk "a" ItemState.done none 0 "" [] none] = true :=
  change_item_state_done_clears
    [Item.mk "a" ItemState.todo (some 5) 0 "" [] none]
    [Item.mk "a" ItemState.done none 0 "" [] none]
    5 (Item.mk "a" ItemState.todo (some 5) 0 "" [] none)
    (by decide) (by decide) (by decide) (by decide)

/-- C7: `add_item_on_root` appends exactly one new item built with the
allocated identifiers; the allocated ref-id is not in the pre-call ref-id
set and is the smallest absent value, and the allocated internal id is at
least every internal id used before the call. -/
theorem add_item_on_root_spec (m : ItemManager) (name context : String) (state : ItemState)
    (description : String) (children : List Item) :
    (m.add_item_on_root name context state description children).data
        = m.data ++ [Item.new (some (find_lowest_free_value m.ref_ids))
            (find_highest_free_value m.internal_ids) name context state description children]
      ∧ find_lowest_free_value m.ref_ids ∉ m.ref_ids
      ∧ (∀ k < find_lowest_free_value m.ref_ids, k ∈ m.ref_ids)
      ∧ ∀ x ∈ m.internal_ids, x ≤ find_highest_free_value m.internal_ids :=
  ⟨rfl, find_lowest_free_value_not_mem m.ref_ids, find_lowest_free_value_min m.ref_ids,
    find_highest_free_value_ge m.internal_ids⟩

/-- C1: evaluation of `ItemManager::new` on a duplicate-free input forest of
three `Todo` items (two roots and one child, all without ref-ids) showing
the constructor's second pass at work: both roots receive the same ref-id 0,
the nested child receives no ref-id at all, and the manager's ref-id set
stays empty — the freshly assigned ids are never inserted into it. -/
theorem itemManager_new_assigns_duplicate_ref_ids :
    (ItemManager.new
        [Item.mk "a" ItemState.todo none 0 ""
           [Item.mk "c" ItemState.todo none 1 "" [] none] none,
         Item.mk "b" ItemState.todo none 2 "" [] none]).toOption.map
        (fun mgr => (mgr.data, mgr.ref_ids.card))
      = some ([Item.mk "a" ItemState.todo (some 0) 0 ""
                 [Item.mk "c" ItemState.todo none 1 "" [] none] none,
               Item.mk "b" ItemState.todo (some 0) 2 "" [] none],
              0) := by decide

deriving instance DecidableEq for Except

/-- Split a character list at every occurrence of `sep`, as Rust's
`str::split` on a single character does (so the empty input yields one
empty token, and separators at the ends yield empty tokens). -/
def splitOnChar (sep : Char) : List Char → List (List Char)
  | [] => [[]]
  | c :: cs =>
    match splitOnChar sep cs with
    | [] => [[]]
    | t :: ts => if c = sep then [] :: t :: ts else (c :: t) :: ts

/-- Test for the `number_regex` pattern of `parse_range_str` in
`src/utils/src/misc.rs`: one or more ASCII digits and nothing else. -/
def isNumberTok (t : List Char) : Bool :=
  !t.isEmpty && t.all Char.isDigit

/-- Decomposition for the `range_regex` pattern of `parse_range_str`:
a token of shape `digits..digits` splits into its two digit groups, any
other token yields `none`. -/
def rangeTok (t : List Char) : Option (List Char × List Char) :=
  let a := t.takeWhile Char.isDigit
  match t.dropWhile Char.isDigit with
  | '.' :: '.' :: b =>
    if !a.isEmpty && !b.isEmpty && b.all Char.isDigit then some (a, b) else none
  | _ => none

/-- Numeric value of a digit string. -/
def digitsToNat (t : List Char) : Nat :=
  t.foldl (fun acc c => 10 * acc + (c.toNat - 48)) 0

/-- Model of `str::parse::<u32>().unwrap()` on a digit string: `none`
stands for the panic when the value does not fit a `u32`. -/
def parseU32 (t : List Char) : Option Nat :=
  if digitsToNat t < 2 ^ 32 then some (digitsToNat t) else none

/-- Loop body of the `start..end` expansion in `parse_range_str`
(`src/utils/src/misc.rs:106-113`): push `i`, then execute `i += 1` — a
`u32` addition that overflows when `i` was `2 ^ 32 - 1`, upon which the
computation never returns a value (debug builds panic; the release build
wraps to 0, and since the loop is only reached with `i ≤ num2` this
happens exactly when `num2 = 2 ^ 32 - 1`, so `i > num2` never becomes
true and the loop runs forever).  The never-returning overflow is
modelled as `none`, like the other panics.  Otherwise stop once
`i > num2`.  The fuel only serves termination; `n2 + 2 - i` steps always
suffice. -/
def rangeLoop (n2 : Nat) : Nat → Nat → List Nat → Option (List Nat)
  | _, 0, _ => none
  | i, fuel + 1, acc =>
    if i + 1 ≥ 2 ^ 32 then none
    else if i + 1 > n2 then some (acc ++ [i])
    else rangeLoop n2 (i + 1) fuel (acc ++ [i])

/-- Inclusive expansion of a range token, `push`ing `n1`, `n1 + 1`, … up
to and including `n2`; `none` models the `i += 1` overflow on which the
source never returns (only possible when `n2 = 2 ^ 32 - 1`, as `n2 < n1`
has already been rejected when the loop runs). -/
def rangeList (n1 n2 : Nat) : Option (List Nat) :=
  rangeLoop n2 n1 (n2 + 2 - n1) []

/-- Error text produced by `parse_range_str` for an inverted range. -/
def rangeErrMsg (n1 n2 : Nat) (t : List Char) : String :=
  "Second number " ++ Nat.repr n2 ++ " is smaller than first number " ++ Nat.repr n1
    ++ " in range " ++ String.mk t

/-- Error text produced by `parse_range_str` for an unparseable token
(the `{:?}` format is modelled as plain quoting). -/
def parseErrMsg (t : List Char) : String :=
  "Could not parse " ++ "\"" ++ String.mk t ++ "\""

/-- Token loop of `parse_range_str` from `src/utils/src/misc.rs`,
accumulating expanded values in order; `none` models a panic. -/
def parseRangeTokens : List (List Char) → List Nat → Option (Except String (List Nat))
  | [], acc => some (.ok acc)
  | t :: ts, acc =>
    if isNumberTok t then
      match parseU32 t with
      | none => none
      | some v => parseRangeTokens ts (acc ++ [v])
    else
      match rangeTok t with
      | some (a, b) =>
        match parseU32 a, parseU32 b with
        | some n1, some n2 =>
          if n2 < n1 then some (.error (rangeErrMsg n1 n2 t))
          else
            match rangeList n1 n2 with
            | none => none
            | some expansion => parseRangeTokens ts (acc ++ expansion)
        | _, _ => none
      | none => some (.error (parseErrMsg t))

/-- Range selector `parse_range_str` from `src/utils/src/misc.rs`: strip
spaces, split on commas, then expand each token (bare integer or
`start..end` inclusive range) left to right. -/
def parse_range_str (s : String) : Option (Except String (List Nat)) :=
  parseRangeTokens (splitOnChar ',' (s.toList.filter (fun c => c != ' '))) []

/-- Expansion of a single token following the words of the spec
(section 4.5): a bare integer denotes itself, `a..b` with `a ≤ b` denotes
the inclusive sequence, anything else is not well-formed — including a
`u32` overflow of a parsed value or of the expansion loop's increment
(an upper bound of `2 ^ 32 - 1`), where the source panics or diverges
instead of producing a value. -/
def specTokenExpansion (t : List Char) : Option (List Nat) :=
  if isNumberTok t then (parseU32 t).map (fun v => [v])
  else
    match rangeTok t with
    | some (a, b) =>
      match parseU32 a, parseU32 b with
      | some n1, some n2 => if n1 ≤ n2 then rangeList n1 n2 else none
      | _, _ => none
    | none => none

/-- Concatenation of all token expansions in left-to-right order, following
the words of the spec (section 4.5). -/
def specConcatExpansion (toks : List (List Char)) : List Nat :=
  toks.foldr (fun t acc => (specTokenExpansion t).getD [] ++ acc) []

theorem parseRangeTokens_append (pre : List (List Char)) :
    ∀ l : List (List Char), ∀ acc : List Nat,
      (∀ u ∈ pre, (specTokenExpansion u).isSome) →
      parseRangeTokens (pre ++ l) acc = parseRangeTokens l (acc ++ specConcatExpansion pre) := by
  induction pre with
  | nil =>
    intro l acc _
    simp [specConcatExpansion]
  | cons t ts ih =>
    intro l acc hwf
    have ht : (specTokenExpansion t).isSome := hwf t (by simp)
    have hts : ∀ u ∈ ts, (specTokenExpansion u).isSome := fun u hu => hwf u (by simp [hu])
    have hconcat : specConcatExpansion (t :: ts)
        = (specTokenExpansion t).getD [] ++ specConcatExpansion ts := rfl
    rw [List.cons_append, parseRangeTokens, hconcat]
    by_cases hnum : isNumberTok t
    · have hts' : (Option.map (fun v => [v]) (parseU32 t)).isSome = true := by
        rw [specTokenExpansion, if_pos hnum] at ht
        exact ht
      obtain ⟨v, hp⟩ : ∃ v, parseU32 t = some v := by
        cases hp : parseU32 t with
        | none => rw [hp] at hts'; simp at hts'
        | some v => exact ⟨v, rfl⟩
      have hexp : specTokenExpansion t = some [v] := by
        rw [specTokenExpansion, if_pos hnum, hp]
        rfl
      rw [if_pos hnum]
      simp only [hp, hexp, Option.getD_some]
      rw [ih l (acc ++ [v]) hts, List.append_assoc]
    · have htr : ∃ a b, rangeTok t = some (a, b) := by
        cases hr : rangeTok t with
        | none =>
          exfalso
          have : specTokenExpansion t = none := by
            rw [specTokenExpansion, if_neg hnum, hr]
          rw [this] at ht
          simp at ht
        | some ab =>
          obtain ⟨a, b⟩ := ab
          exact ⟨a, b, rfl⟩
      obtain ⟨a, b, hr⟩ := htr
      have hpa : ∃ n1, parseU32 a = some n1 := by
        cases hpa : parseU32 a with
        | none =>
          exfalso
          have : specTokenExpansion t = none := by
            rw [specTokenExpansion, if_neg hnum, hr]
            simp [hpa]
          rw [this] at ht
          simp at ht
        | some n1 => exact ⟨n1, rfl⟩
      obtain ⟨n1, hpa⟩ := hpa
      have hpb : ∃ n2, parseU32 b = some n2 := by
        cases hpb : parseU32 b with
        | none =>
          exfalso
          have : specTokenExpansion t = none := by
            rw [specTokenExpansion, if_neg hnum, hr]
            simp [hpa, hpb]
          rw [this] at ht
          simp at ht
        | some n2 => exact ⟨n2, rfl⟩
      obtain ⟨n2, hpb⟩ := hpb
      have hle : n1 ≤ n2 := by
        by_contra hgt
        have : specTokenExpansion t = none := by
          rw [specTokenExpansion, if_neg hnum, hr]
          simp [hpa, hpb, hgt]
        rw [this] at ht
        simp at ht
      have hrl : ∃ e, rangeList n1 n2 = some e := by
        cases hrl : rangeList n1 n2 with
        | none =>
          exfalso
          have : specTokenExpansion t = none := by
            rw [specTokenExpansion, if_neg hnum, hr]
            simp [hpa, hpb, hrl]
          rw [this] at ht
          simp at ht
        | some e => exact ⟨e, rfl⟩
      obtain ⟨e, hrl⟩ := hrl
      have hexp : specTokenExpansion t = some e := by
        rw [specTokenExpansion, if_neg hnum, hr]
        simp [hpa, hpb, hle, hrl]
      rw [if_neg hnum]
      simp only [hr, hpa, hpb, if_neg (by omega : ¬ n2 < n1), hrl, hexp, Option.getD_some]
      rw [ih l (acc ++ e) hts, List.append_assoc]

/-- C8: parsing `"1..10,4,5"` yields exactly `[1,…,10,4,5]`, and in general
every well-formed comma-separated range string parses to the concatenation
of its tokens' expansions in left-to-right order, duplicates preserved. -/
theorem parse_range_str_concat :
    parse_range_str "1..10,4,5" = some (.ok [1, 2, 3, 4, 5, 6, 7, 8, 9, 10, 4, 5]) ∧
      ∀ s : String,
        (∀ t ∈ splitOnChar ',' (s.toList.filter (fun c => c != ' ')),
          (specTokenExpansion t).isSome) →
        parse_range_str s = some (.ok (specConcatExpansion
          (splitOnChar ',' (s.toList.filter (fun c => c != ' '))))) := by
  constructor
  · decide
  · intro s hwf
    rw [parse_range_str]
    have := parseRangeTokens_append
      (splitOnChar ',' (s.toList.filter (fun c => c != ' '))) [] [] hwf
    rw [List.append_nil] at this
    rw [this]
    rw [parseRangeTokens]
    simp

/-- Witness for the general clause of C8 at the concrete string
`"2..4,1"`. -/
theorem parse_range_str_concat_witness :
    parse_range_str "2..4,1" = some (.ok (specConcatExpansion
      (splitOnChar ',' (("2..4,1" : String).toList.filter (fun c => c != ' '))))) :=
  parse_range_str_concat.2 "2..4,1" (by decide)

theorem rangeTok_not_number (t a b : List Char) (hr : rangeTok t = some (a, b)) :
    isNumberTok t = false := by
  by_contra h
  have hnum : isNumberTok t = true := by
    revert h
    cases isNumberTok t <;> simp
  have hall : ∀ c ∈ t, Char.isDigit c := by
    rw [isNumberTok, Bool.and_eq_true, List.all_eq_true] at hnum
    exact fun c hc => hnum.2 c hc
  have hdrop : t.dropWhile Char.isDigit = [] := List.dropWhile_eq_nil_iff.mpr hall
  rw [rangeTok] at hr
  simp only [hdrop] at hr
  exact Option.noConfusion hr

/-- C9: whenever the token list of a selection string reaches a range token
`a..b` with `b < a` (every earlier token being well-formed), parsing stops
with the error that names both bounds and the token, and no value list is
produced. -/
theorem parse_range_str_inverted_range (s : String) (pre rest : List (List Char))
    (t a b : List Char) (n1 n2 : Nat)
    (hsplit : splitOnChar ',' (s.toList.filter (fun c => c != ' ')) = pre ++ t :: rest)
    (hpre : ∀ u ∈ pre, (specTokenExpansion u).isSome)
    (hr : rangeTok t = some (a, b))
    (ha : parseU32 a = some n1) (hb : parseU32 b = some n2)
    (hlt : n2 < n1) :
    parse_range_str s = some (.error (rangeErrMsg n1 n2 t)) := by
  rw [parse_range_str, hsplit, parseRangeTokens_append pre (t :: rest) [] hpre]
  rw [parseRangeTokens]
  have hfalse := rangeTok_not_number t a b hr
  simp [hfalse, hr, ha, hb, hlt]

/-- Witness for C9 at the concrete string `"5..2"`: the parse fails with
the error naming 2, 5 and the token `5..2`. -/
theorem parse_range_str_inverted_range_witness :
    parse_range_str "5..2" = some (.error (rangeErrMsg 5 2 ['5', '.', '.', '2'])) ∧
      rangeErrMsg 5 2 ['5', '.', '.', '2']
        = "Second number 2 is smaller than first number 5 in range 5..2" :=
  ⟨parse_range_str_inverted_range "5..2" [] [] ['5', '.', '.', '2'] ['5'] ['2'] 5 2
      (by decide) (by simp) (by decide) (by decide) (by decide) (by decide),
    by decide⟩

/-- Header text of `Report::report` in `src/src/itmn/report.rs`, computed
from the lower bound of the iterator's size hint — which is exactly `n`
for the vector-backed iterators every caller passes. -/
def lengthMessage (n : Nat) : String :=
  match n with
  | 0 | 1 => "No items to be displayed"
  | 2 => "1 item to be displayed"
  | i => Nat.repr (i - 1) ++ " items to be displayed"

/-- Entry point `Report::report` from `src/src/itmn/report.rs`: print the
label and the size-hint-derived header line, then hand every item to
`display_all` (modelled as returning the displayed items alongside the
header; with no filter installed `display_all` displays each item). -/
def Report.report (label : String) (items : List Item) : String × List Item :=
  (label ++ " | " ++ lengthMessage items.length, items)

/-- C10: the header printed by `Report::report` understates the selection
size by one: a vector-backed selection of `n` items is announced as
"No items to be displayed" for `n = 0` or `n = 1`, "1 item to be
displayed" for `n = 2`, and "`n - 1` items to be displayed" for `n > 2`,
while all `n` items are then displayed. -/
theorem report_header_off_by_one (label : String) (items : List Item) :
    ((items.length = 0 ∨ items.length = 1) →
        (Report.report label items).1 = label ++ " | " ++ "No items to be displayed")
      ∧ (items.length = 2 →
        (Report.report label items).1 = label ++ " | " ++ "1 item to be displayed")
      ∧ (2 < items.length →
        (Report.report label items).1
          = label ++ " | " ++ (Nat.repr (items.length - 1) ++ " items to be displayed"))
      ∧ (Report.report label items).2 = items := by
  refine ⟨?_, ?_, ?_, rfl⟩
  · rintro (h | h) <;> simp [Report.report, lengthMessage, h]
  · intro h
    simp [Report.report, lengthMessage, h]
  · intro h
    obtain ⟨k, hk⟩ : ∃ k, items.length = k + 3 := ⟨items.length - 3, by omega⟩
    simp [Report.report, lengthMessage, hk]

/-- Witness for C10 on a three-item selection: the header claims 2 items
will be displayed. -/
theorem report_header_off_by_one_witness :
    2 < ([Item.mk "a" ItemState.todo (some 0) 0 "" [] none,
          Item.mk "b" ItemState.todo (some 1) 1 "" [] none,
          Item.mk "c" ItemState.todo (some 2) 2 "" [] none] : List Item).length ∧
      (Report.report "Next" [Item.mk "a" ItemState.todo (some 0) 0 "" [] none,
          Item.mk "b" ItemState.todo (some 1) 1 "" [] none,
          Item.mk "c" ItemState.todo (some 2) 2 "" [] none]).1
        = "Next" ++ " | "
          ++ (Nat.repr ([Item.mk "a" ItemState.todo (some 0) 0 "" [] none,
                Item.mk "b" ItemState.todo (some 1) 1 "" [] none,
                Item.mk "c" ItemState.todo (some 2) 2 "" [] none].length - 1)
              ++ " items to be displayed") :=
  ⟨by decide, (report_header_off_by_one "Next" _).2.2.1 (by decide)⟩

/-- Query forms accepted by the generic search traits (`Searchable<RefId>`
and `Searchable<InternalId>`), modelled as the tagged union the spec's
design notes prescribe. -/
inductive Query where
  | byRef (r : Nat)
  | byInternal (n : Nat)
deriving DecidableEq, Repr

/-- Matching test of one query against one item, mirroring the two
`Searchable` implementations in `src/src/itmn/manager.rs`. -/
def queryMatches : Query → Item → Bool
  | .byRef r, it => it.ref_id == some r
  | .byInternal n, it => it.internal_id == n

mutual

/-- Pre-order search inside one item, returning the index path (relative
to this node) of the first node matching the predicate — the functional
stand-in for the node address `find_mut` yields as a raw pointer: two
located nodes are the same Rust object exactly when their paths coincide.
`some []` means the node itself matches. -/
def findPathItem (p : Item → Bool) : Item → Option (List Nat)
  | .mk n s r iid d ch ctx =>
    if p (.mk n s r iid d ch ctx) then some []
    else findPathForest p 0 ch

/-- Pre-order search over a forest, the head being at index `i`. -/
def findPathForest (p : Item → Bool) (i : Nat) : List Item → Option (List Nat)
  | [] => none
  | t :: ts =>
    match findPathItem p t with
    | some rest => some (i :: rest)
    | none => findPathForest p (i + 1) ts

end

/-- Path of the first pre-order node matching a query. -/
def findPathQ (data : List Item) (q : Query) : Option (List Nat) :=
  findPathForest (queryMatches q) 0 data

/-- Node stored at an index path (empty paths address nothing). -/
def getAtForest (ts : List Item) : List Nat → Option Item
  | [] => none
  | i :: rest =>
    match ts.get? i with
    | none => none
    | some t => if rest.isEmpty then some t else getAtForest t.children rest

/-- Replace the node at an index path by `x`, leaving the forest unchanged
when the path addresses nothing. -/
def setAtForest (ts : List Item) (path : List Nat) (x : Item) : List Item :=
  match path with
  | [] => ts
  | i :: rest =>
    match ts.get? i with
    | none => ts
    | some t =>
      if rest.isEmpty then ts.set i x
      else ts.set i (t.withChildren (setAtForest t.children rest x))

/-- Observable effect on the forest of `std::ptr::swap(first, second)` in
`ItemManager::swap`: for two distinct located nodes the byte-wise struct
swap exchanges their whole contents (children included).  When one node is
an ancestor of the other (its path is a proper prefix of the other's), the
swap writes the descendant's contents — among them its own children vector
— into the ancestor's slot, so the tree reachable from the root now shows
the descendant's contents at the ancestor's position, while the ancestor's
old contents (holding the vector that contained the descendant's slot) are
no longer reachable from the root. -/
def ptrSwap (data : List Item) (p1 p2 : List Nat) : List Item :=
  if p1.isPrefixOf p2 then
    match getAtForest data p2 with
    | some c => setAtForest data p1 c
    | none => data
  else if p2.isPrefixOf p1 then
    match getAtForest data p1 with
    | some c => setAtForest data p2 c
    | none => data
  else
    match getAtForest data p1, getAtForest data p2 with
    | some x1, some x2 => setAtForest (setAtForest data p1 x2) p2 x1
    | _, _ => data

/-- Mutation `ItemManager::swap` from `src/src/itmn/manager.rs`, acting on
the manager's forest (the id sets are untouched by the source method):
locate both queries, fail if either is absent or both address the same
node, otherwise perform the pointer swap. -/
def ItemManager.swap (data : List Item) (q1 q2 : Query) : Except String Unit × List Item :=
  match findPathQ data q1 with
  | none => (.error "first query could not be found", data)
  | some p1 =>
    match findPathQ data q2 with
    | none => (.error "second query could not be found", data)
    | some p2 =>
      if p1 = p2 then (.error "first and second queries are the same item", data)
      else (.ok (), ptrSwap data p1 p2)

/-- C6: `swap` fails without touching the forest whenever the first query
resolves to nothing, the second query resolves to nothing, or both
queries resolve to the same node (which covers `swap(a, a)`). -/
theorem swap_error_cases (data : List Item) (q1 q2 : Query) :
    (findPathQ data q1 = none →
        ItemManager.swap data q1 q2 = (.error "first query could not be found", data))
      ∧ (∀ p1, findPathQ data q1 = some p1 → findPathQ data q2 = none →
        ItemManager.swap data q1 q2 = (.error "second query could not be found", data))
      ∧ (∀ p, findPathQ data q1 = some p → findPathQ data q2 = some p →
        ItemManager.swap data q1 q2
          = (.error "first and second queries are the same item", data)) := by
  refine ⟨?_, ?_, ?_⟩
  · intro h
    simp [ItemManager.swap, h]
  · intro p1 h1 h2
    simp [ItemManager.swap, h1, h2]
  · intro p h1 h2
    simp [ItemManager.swap, h1, h2]

/-- Witness for C6: `swap(a, a)` on a one-item tree errors and leaves the
tree unchanged. -/
theorem swap_error_cases_witness :
    ItemManager.swap [Item.mk "a" ItemState.todo (some 0) 0 "" [] none] (.byRef 0) (.byRef 0)
      = (.error "first and second queries are the same item",
         [Item.mk "a" ItemState.todo (some 0) 0 "" [] none]) :=
  (swap_error_cases [Item.mk "a" ItemState.todo (some 0) 0 "" [] none]
    (.byRef 0) (.byRef 0)).2.2 [0] (by decide) (by decide)

/-- C5: evaluation of `swap` at a two-node tree whose first query resolves
to the parent and whose second resolves to that parent's child: the first
swap reports success but collapses the tree to the child alone, the
repeated swap then fails with "first query could not be found", and the
resulting tree differs from the original — the double swap does not
restore the original tree. -/
theorem swap_parent_child_not_involutive :
    ItemManager.swap [Item.mk "p" ItemState.todo (some 0) 0 ""
        [Item.mk "c" ItemState.todo (some 1) 1 "" [] none] none] (.byRef 0) (.byRef 1)
      = (.ok (), [Item.mk "c" ItemState.todo (some 1) 1 "" [] none])
    ∧ ItemManager.swap [Item.mk "c" ItemState.todo (some 1) 1 "" [] none] (.byRef 0) (.byRef 1)
      = (.error "first query could not be found",
         [Item.mk "c" ItemState.todo (some 1) 1 "" [] none])
    ∧ [Item.mk "c" ItemState.todo (some 1) 1 "" [] none]
      ≠ [Item.mk "p" ItemState.todo (some 0) 0 ""
          [Item.mk "c" ItemState.todo (some 1) 1 "" [] none] none] :=
  ⟨by decide, by decide, by decide⟩

mutual

/-- Modelled from the spec: `Item::has_child` — defined in the `src/itmn`
crate's `item.rs`, which is absent from the snapshot (only its caller in
`src/itmn/src/main.rs` is).  Per check (b) of spec section 4.4 it is a
subtree-containment test: does `other` occur among the descendants of this
item? -/
def Item.has_child (it other : Item) : Bool :=
  match it with
  | .mk _ _ _ _ _ ch _ => hasChildForest ch other

/-- Forest side of the subtree-containment test: `other` is one of the
nodes of the forest or sits deeper inside one of them. -/
def hasChildForest : List Item → Item → Bool
  | [], _ => false
  | t :: ts, other => t == other || t.has_child other || hasChildForest ts other

end

/-- New-owner target of the change-ownership command (`.ROOT`, an internal
id written `i<n>`, or a bare ref-id), from the `NewOwner` enum local to
`subcmd_selection` in `src/itmn/src/main.rs`. -/
inductive NewOwner where
  | root
  | byInternal (n : Nat)
  | byRef (r : Nat)
deriving DecidableEq, Repr

/-- Resolution of the new owner to an internal id (`None` for the root),
from the `new_owner_internal_id` match in `src/itmn/src/main.rs`. -/
def resolveOwner (data : List Item) : NewOwner → Except String (Option Nat)
  | .root => .ok none
  | .byInternal n =>
    match findForestInt n data with
    | some _ => .ok (some n)
    | none => .error ("could not find item with InternalId = " ++ Nat.repr n)
  | .byRef r =>
    match findForestRef r data with
    | some item => .ok (some item.internal_id)
    | none => .error ("could not find item with RefId = " ++ Nat.repr r)

/-- Optional `R#<id>, ` fragment used by the change-ownership error
messages. -/
def refPartStr (it : Item) : String :=
  match it.ref_id with
  | some id => "R#" ++ Nat.repr id ++ ", "
  | none => ""

/-- Error text of the owner-in-selection rejection (the `{:?}` name format
is modelled as plain quoting). -/
def ownerInSelectionMsg (it : Item) : String :=
  "item \"" ++ it.name ++ "\" (" ++ refPartStr it ++ "I#" ++ Nat.repr it.internal_id
    ++ ") is on selection and is the new owner"

/-- Error text of the parent-child-conflict rejection (the `{:?}` name
format is modelled as plain quoting). -/
def parentChildConflictMsg (parent child : Item) : String :=
  "parent-child conflict:\nlet item A = \"" ++ child.name ++ "\" (" ++ refPartStr child
    ++ "I#" ++ Nat.repr child.internal_id ++ "), and\n    item B = \"" ++ parent.name
    ++ "\" (" ++ refPartStr parent ++ "I#" ++ Nat.repr parent.internal_id
    ++ ").\nA is a child of B, but both A and B are on the selection."

/-- Check (a) of the change-ownership flow ("Prevent the new owner from
being in the selection", `src/itmn/src/main.rs`): scan the resolved items
in order and return the first offender's error, if any. -/
def ownerInSelectionCheck (items : List Item) (ownerIid : Option Nat) : Option String :=
  match items with
  | [] => none
  | it :: rest =>
    if some it.internal_id = ownerIid then some (ownerInSelectionMsg it)
    else ownerInSelectionCheck rest ownerIid

/-- Inner loop of check (b): `a` sits at index `i`; scan the whole item
list again (indices from `i2`) for a selected item contained in `a`'s
subtree. -/
def pairConflictInner (a : Item) (i : Nat) : List Item → Nat → Option String
  | [], _ => none
  | b :: rest, i2 =>
    if i != i2 && a.has_child b then some (parentChildConflictMsg a b)
    else pairConflictInner a i rest (i2 + 1)

/-- Outer loop of check (b) ("Prevent a selected item from being a child of
another selected item", `src/itmn/src/main.rs`): enumerate pairs of indices
lexicographically and report the first conflict. -/
def pairConflictOuter : List Item → Nat → List Item → Option String
  | [], _, _ => none
  | a :: rest, i, all =>
    match pairConflictInner a i all 0 with
    | some msg => some msg
    | none => pairConflictOuter rest (i + 1) all

/-- Check (b) of the change-ownership flow over the resolved selection. -/
def pairConflictCheck (items : List Item) : Option String :=
  pairConflictOuter items 0 items

mutual

/-- Child-level step of `try_remove`: attempt the removal inside one
item's children, returning the removed node together with the updated
item. -/
def tryRemoveItem (r : Nat) : Item → Option (Item × Item)
  | .mk n s ref iid d ch ctx =>
    match tryRemoveForest r ch with
    | some (x, ch') => some (x, .mk n s ref iid d ch' ctx)
    | none => none

/-- Mutation `ItemManager::try_remove` from `src/src/itmn/manager.rs` on a
forest: remove and return the first node (pre-order) whose ref-id is
`some r`, its whole subtree going with it. -/
def tryRemoveForest (r : Nat) : List Item → Option (Item × List Item)
  | [] => none
  | t :: ts =>
    if t.ref_id == some r then some (t, ts)
    else
      match tryRemoveItem r t with
      | some (x, t') => some (x, t' :: ts)
      | none =>
        match tryRemoveForest r ts with
        | some (x, ts') => some (x, t :: ts')
        | none => none

end

/-- Selection-removal step of the change-ownership flow: `try_remove` each
ref-id in order, threading the shrinking forest and collecting the
detached items; `none` models the `unwrap` panic when an id is no longer
present. -/
def removeAll (data : List Item) : List Nat → Option (List Item × List Item)
  | [] => some ([], data)
  | r :: rest =>
    match tryRemoveForest r data with
    | none => none
    | some (x, data') =>
      match removeAll data' rest with
      | none => none
      | some (xs, data'') => some (x :: xs, data'')

mutual

/-- First-pre-order-match update modelling `find_mut` on the new owner
followed by `owner.children.extend(items)`, single item. -/
def extendChildrenItem (p : Item → Bool) (new : List Item) : Item → Option Item
  | .mk n s ref iid d ch ctx =>
    if p (.mk n s ref iid d ch ctx) then some (.mk n s ref iid d (ch ++ new) ctx)
    else
      match extendChildrenForest p new ch with
      | some ch' => some (.mk n s ref iid d ch' ctx)
      | none => none

/-- First-pre-order-match update modelling `find_mut` on the new owner
followed by `owner.children.extend(items)`, forest. -/
def extendChildrenForest (p : Item → Bool) (new : List Item) : List Item → Option (List Item)
  | [] => none
  | t :: ts =>
    match extendChildrenItem p new t with
    | some t' => some (t' :: ts)
    | none =>
      match extendChildrenForest p new ts with
      | some ts' => some (t :: ts')
      | none => none

end

/-- Change-ownership (reparent) flow of `SelAct::ChangeOwnership` in
`subcmd_selection`, `src/itmn/src/main.rs`, starting after the range has
been parsed and validated and the target argument parsed into a
`NewOwner`; the interactive report and confirmation are elided (the
confirmation taken as "yes").  The outer `Option` models panics (a failed
`unwrap` after `find` or `try_remove`), the `Except` component the
command's error result; the forest accompanies the result so that
"rejected without mutating the tree" is directly expressible. -/
def changeOwnership (data : List Item) (range : List Nat) (owner : NewOwner) :
    Option (Except String Unit × List Item) :=
  match range.mapM (fun id => findForestRef id data) with
  | none => none
  | some items =>
    match resolveOwner data owner with
    | .error e => some (.error e, data)
    | .ok ownerIid =>
      match ownerInSelectionCheck items ownerIid with
      | some e => some (.error e, data)
      | none =>
        match pairConflictCheck items with
        | some e => some (.error e, data)
        | none =>
          match removeAll data range with
          | none => none
          | some (removed, data') =>
            match owner with
            | .root => some (.ok (), data' ++ removed)
            | .byRef r =>
              match extendChildrenForest (fun it => it.ref_id == some r) removed data' with
              | some data'' => some (.ok (), data'')
              | none => none
            | .byInternal n =>
              match extendChildrenForest (fun it => it.internal_id == n) removed data' with
              | some data'' => some (.ok (), data'')
              | none => none

theorem ownerInSelectionCheck_fires (ownerIid : Nat) :
    ∀ items : List Item, ∀ x ∈ items, x.internal_id = ownerIid →
      ∃ msg, ownerInSelectionCheck items (some ownerIid) = some msg
  | [], x, hx, _ => absurd hx (List.not_mem_nil x)
  | it :: rest, x, hx, hid => by
    rw [ownerInSelectionCheck]
    by_cases h : some it.internal_id = some ownerIid
    · rw [if_pos h]
      exact ⟨ownerInSelectionMsg it, rfl⟩
    · rw [if_neg h]
      rcases List.mem_cons.mp hx with h1 | h1
      · exact absurd (by rw [← h1, hid]) h
      · exact ownerInSelectionCheck_fires ownerIid rest x h1 hid

theorem pairConflictInner_none (a : Item) (i : Nat) :
    ∀ all : List Item, ∀ i2 : Nat, pairConflictInner a i all i2 = none →
      ∀ k b, all.get? k = some b → i ≠ i2 + k → a.has_child b = false
  | [], i2, _, k, b, hb, _ => by simp at hb
  | b0 :: rest, i2, hnone, k, b, hb, hne => by
    rw [pairConflictInner] at hnone
    by_cases hcond : (i != i2 && a.has_child b0) = true
    · rw [if_pos hcond] at hnone
      exact Option.noConfusion hnone
    · rw [if_neg hcond] at hnone
      cases k with
      | zero =>
        simp only [List.get?] at hb
        injection hb with hb
        rw [← hb]
        have hne' : (i != i2) = true := by
          simp only [bne_iff_ne]
          omega
        cases hhc : a.has_child b0 with
        | false => rfl
        | true => exact absurd (by rw [hne', hhc]; rfl) hcond
      | succ k' =>
        simp only [List.get?] at hb
        exact pairConflictInner_none a i rest (i2 + 1) hnone k' b hb (by omega)

theorem pairConflictOuter_none :
    ∀ items : List Item, ∀ ibase : Nat, ∀ all : List Item,
      pairConflictOuter items ibase all = none →
      ∀ k a, items.get? k = some a → pairConflictInner a (ibase + k) all 0 = none
  | [], ibase, all, _, k, a, ha => by simp at ha
  | a0 :: rest, ibase, all, hnone, k, a, ha => by
    rw [pairConflictOuter] at hnone
    cases hin : pairConflictInner a0 ibase all 0 with
    | some msg => rw [hin] at hnone; exact Option.noConfusion hnone
    | none =>
      rw [hin] at hnone
      cases k with
      | zero =>
        simp only [List.get?] at ha
        injection ha with ha
        subst ha
        simpa using hin
      | succ k' =>
        simp only [List.get?] at ha
        have := pairConflictOuter_none rest (ibase + 1) all hnone k' a ha
        simpa [Nat.add_assoc, Nat.add_comm, Nat.add_left_comm] using this

theorem pairConflictCheck_fires (items : List Item) (i j : Nat) (a b : Item)
    (hi : items.get? i = some a) (hj : items.get? j = some b)
    (hij : i ≠ j) (hanc : a.has_child b = true) :
    ∃ msg, pairConflictCheck items = some msg := by
  cases hpc : pairConflictCheck items with
  | some msg => exact ⟨msg, rfl⟩
  | none =>
    exfalso
    rw [pairConflictCheck] at hpc
    have hin := pairConflictOuter_none items 0 items hpc i a (by simpa using hi)
    have := pairConflictInner_none a (0 + i) items 0 (by simpa using hin) j b hj (by omega)
    rw [hanc] at this
    exact Bool.noConfusion this

/-- C3: when the new-owner query resolves to an item whose internal id
belongs to one of the resolved selected items, the change-ownership flow
stops with an error before any item is detached and hands back the forest
unchanged. -/
theorem changeOwnership_owner_in_selection (data : List Item) (range : List Nat)
    (owner : NewOwner) (items : List Item) (ownerIid : Nat) (x : Item)
    (hres : range.mapM (fun id => findForestRef id data) = some items)
    (hown : resolveOwner data owner = .ok (some ownerIid))
    (hx : x ∈ items) (hxid : x.internal_id = ownerIid) :
    ∃ msg, changeOwnership data range owner = some (.error msg, data) := by
  obtain ⟨msg, hmsg⟩ := ownerInSelectionCheck_fires ownerIid items x hx hxid
  exact ⟨msg, by rw [changeOwnership, hres]; simp only [hown, hmsg]⟩

/-- Witness for C3: reparenting selection `[0]` onto the ref-id-0 item
itself errors and leaves the two-item forest unchanged. -/
theorem changeOwnership_owner_in_selection_witness :
    ∃ msg, changeOwnership
        [Item.mk "a" ItemState.todo (some 0) 0 "" [] none,
         Item.mk "b" ItemState.todo (some 1) 1 "" [] none] [0] (.byRef 0)
      = some (.error msg,
        [Item.mk "a" ItemState.todo (some 0) 0 "" [] none,
         Item.mk "b" ItemState.todo (some 1) 1 "" [] none]) :=
  changeOwnership_owner_in_selection
    [Item.mk "a" ItemState.todo (some 0) 0 "" [] none,
     Item.mk "b" ItemState.todo (some 1) 1 "" [] none] [0] (.byRef 0)
    [Item.mk "a" ItemState.todo (some 0) 0 "" [] none] 0
    (Item.mk "a" ItemState.todo (some 0) 0 "" [] none)
    (by decide) (by decide) (by simp) (by decide)

/-- C2: when the resolved selection holds, at two different positions, an
item `a` and an item `b` lying inside `a`'s subtree (`a` an ancestor of
`b`), the change-ownership flow stops with an error before any item is
detached and hands back the forest unchanged. -/
theorem changeOwnership_ancestor_in_selection (data : List Item) (range : List Nat)
    (owner : NewOwner) (items : List Item) (i j : Nat) (a b : Item)
    (hres : range.mapM (fun id => findForestRef id data) = some items)
    (hij : i ≠ j) (hi : items.get? i = some a) (hj : items.get? j = some b)
    (hanc : a.has_child b = true) :
    ∃ msg, changeOwnership data range owner = some (.error msg, data) := by
  cases hown : resolveOwner data owner with
  | error e => exact ⟨e, by rw [changeOwnership, hres]; simp only [hown]⟩
  | ok ownerIid =>
    cases hoc : ownerInSelectionCheck items ownerIid with
    | some e => exact ⟨e, by rw [changeOwnership, hres]; simp only [hown, hoc]⟩
    | none =>
      obtain ⟨msg, hmsg⟩ := pairConflictCheck_fires items i j a b hi hj hij hanc
      exact ⟨msg, by rw [changeOwnership, hres]; simp only [hown, hoc, hmsg]⟩

/-- Witness for C2: selecting both a parent (ref-id 0) and its child
(ref-id 1) for a move to the root errors and leaves the forest
unchanged. -/
theorem changeOwnership_ancestor_in_selection_witness :
    ∃ msg, changeOwnership
        [Item.mk "a" ItemState.todo (some 0) 0 ""
           [Item.mk "b" ItemState.todo (some 1) 1 "" [] none] none] [0, 1] .root
      = some (.error msg,
        [Item.mk "a" ItemState.todo (some 0) 0 ""
           [Item.mk "b" ItemState.todo (some 1) 1 "" [] none] none]) :=
  changeOwnership_ancestor_in_selection
    [Item.mk "a" ItemState.todo (some 0) 0 ""
       [Item.mk "b" ItemState.todo (some 1) 1 "" [] none] none] [0, 1] .root
    [Item.mk "a" ItemState.todo (some 0) 0 ""
       [Item.mk "b" ItemState.todo (some 1) 1 "" [] none] none,
     Item.mk "b" ItemState.todo (some 1) 1 "" [] none]
    0 1
    (Item.mk "a" ItemState.todo (some 0) 0 ""
       [Item.mk "b" ItemState.todo (some 1) 1 "" [] none] none)
    (Item.mk "b" ItemState.todo (some 1) 1 "" [] none)
    (by decide) (by decide) (by decide) (by decide) (by decide)

/-- C8 counterexample: the sequence yielded for `"1..10,4,5"` has 12
elements, not 13 as the claim's count asserts. -/
theorem parse_range_str_not_thirteen_elements :
    (parse_range_str "1..10,4,5").map (fun r => r.map List.length) = some (.ok 12)
      ∧ ¬ (parse_range_str "1..10,4,5").map (fun r => r.map List.length) = some (.ok 13) :=
  ⟨by decide, by decide⟩

/-- The range-expansion loop never returns a value when the upper bound is
`u32::MAX = 2 ^ 32 - 1`: every iteration either hits the overflowing
`i += 1` or recurses, mirroring the source's debug panic / release
divergence on such tokens. -/
theorem rangeLoop_max_none : ∀ fuel i acc, rangeLoop (2 ^ 32 - 1) i fuel acc = none := by
  intro fuel
  induction fuel with
  | zero =>
    intro i acc
    rfl
  | succ n ih =>
    intro i acc
    rw [rangeLoop]
    by_cases h : i + 1 ≥ 2 ^ 32
    · rw [if_pos h]
    · rw [if_neg h]
      rw [if_neg (by omega : ¬ i + 1 > 2 ^ 32 - 1)]
      exact ih (i + 1) (acc ++ [i])

/-- A range token whose upper bound is `u32::MAX` is never expanded:
`rangeList` yields `none` (the source never returns), so such tokens are
not well-formed. -/
theorem rangeList_max_none (n1 : Nat) : rangeList n1 (2 ^ 32 - 1) = none :=
  rangeLoop_max_none (2 ^ 32 - 1 + 2 - n1) n1 []
